import Mathlib

/-!
Verification of the sliding-puzzle state machine of `sliding_puzzle.py`.

The model below is a shallow embedding of the game's core: the grid of
string-labelled cells (the blank is the empty string), the move rule of
`Grid.make_move` (including the inverted direction-to-neighbor mapping and
the in-bounds check), win detection (`Grid.has_won` comparing against
`Grid.get_new_grid`), the shuffle loop, the persisted-state write performed
inside `make_move`, and the replay machinery (`Grid.reverse_solve`,
forward playback).  Pygame key codes are modelled by their numeric values;
the random source of `shuffle` is modelled as an injected draw function;
writing the JSON file is modelled by a boolean "a write happened" output
and by the `prev_moves`/`prev_board` fields that mirror
`previous_state`.  Rendering, sounds and timers are outside the model.
-/

namespace SlidingPuzzle

/-- Pygame key code for the up arrow. -/
def K_UP : Nat := 1073741906

/-- Pygame key code for the down arrow. -/
def K_DOWN : Nat := 1073741905

/-- Pygame key code for the right arrow. -/
def K_RIGHT : Nat := 1073741903

/-- Pygame key code for the left arrow. -/
def K_LEFT : Nat := 1073741904

/-- Pygame key code for the letter r (the restart key). -/
def K_r : Nat := 114

/-- The blank cell is represented by the empty string, as in the source. -/
def blankCell : String := ""

/-- A board is the value matrix of the grid: rows of cell labels. -/
abbrev Board := List (List String)

/-- Read the cell at column `x`, row `y` (`grid[y][x]` in the source). -/
def getCell (g : Board) (x y : Int) : String :=
  (g.getD y.toNat []).getD x.toNat blankCell

/-- Write the cell at column `x`, row `y` (`grid[y][x] = v` in the source). -/
def setCell (g : Board) (x y : Int) (v : String) : Board :=
  g.set y.toNat ((g.getD y.toNat []).set x.toNat v)

/-- Bounds test of `Grid.is_index_in_bounds`:
`x >= 0 and x < len(grid[0]) and y >= 0 and y < len(grid)`. -/
def boundsOk (g : Board) (x y : Int) : Bool :=
  decide (0 ≤ x) && decide (x < ((g.headD []).length : Int)) &&
    decide (0 ≤ y) && decide (y < (g.length : Int))

/-- Python `range(start, stop, step)` for a positive step. -/
def pyRange (start stop step : Nat) : List Nat :=
  List.range' start ((stop - start + step - 1) / step) step

/-- The rows built by `get_new_grid` before the blank is placed:
`for i in range(1, w*h, w): grid.append([str(j) for j in range(i, i+w)])`. -/
def new_grid_rows (width height : Nat) : Board :=
  (pyRange 1 (width * height) width).map (fun i => (List.range' i width).map Nat.repr)

/-- `Grid.get_new_grid`: the ordered grid of labels `1..w*h` with the cell at
`empty_index` replaced by the blank (`grid[y][x] = ''`). -/
def get_new_grid (width height : Nat) (e : Int × Int) : Board :=
  setCell (new_grid_rows width height) e.1 e.2 blankCell

/-- The canonical solved board: `get_new_grid` taken at the bottom-right
corner, where the blank starts. -/
def solvedBoard (width height : Nat) : Board :=
  get_new_grid width height (((width : Int) - 1, (height : Int) - 1))

/-- Modelled from the spec: the canonical solved sequence, "labels 1..N-1 in
row-major order followed by the blank". -/
def canonicalSeq (width height : Nat) : List String :=
  ((List.range' 1 (width * height - 1)).map Nat.repr) ++ [blankCell]

/-- An input to `make_move`: either a pygame key code (from `event.key`) or a
single-character move string (from a recorded move log). -/
inductive MoveInput
  | key (k : Nat)
  | letter (c : Char)
deriving DecidableEq

/-- The `letter_convert` dict of `make_move`; `none` for a character that is
not one of the four move letters. -/
def letter_convert (c : Char) : Option Nat :=
  if c = 'U' then some K_UP
  else if c = 'D' then some K_DOWN
  else if c = 'R' then some K_RIGHT
  else if c = 'L' then some K_LEFT
  else none

/-- The `move_map` dict of `make_move` (only ever applied to the four
direction keys; the final branch is `K_LEFT`). -/
def move_map (k : Nat) : Char :=
  if k = K_UP then 'U'
  else if k = K_DOWN then 'D'
  else if k = K_RIGHT then 'R'
  else 'L'

/-- The `neighbors` dict of `make_move`: the cell examined for each direction
key.  Note the inversion: `K_UP` examines the cell one row below the blank,
`K_LEFT` the cell to its right, and so on (only ever applied to the four
direction keys; the final branch is `K_LEFT`). -/
def neighbors (x y : Int) (k : Nat) : Int × Int :=
  if k = K_UP then (x, y + 1)
  else if k = K_DOWN then (x, y - 1)
  else if k = K_RIGHT then (x - 1, y)
  else (x + 1, y)

/-- The `inverse` dict of `reverse_solve`: maps a logged move letter to the
key of the opposite direction (only ever applied to the four move letters;
the final branch is `'R' -> K_LEFT`). -/
def inverse (c : Char) : Nat :=
  if c = 'U' then K_DOWN
  else if c = 'D' then K_UP
  else if c = 'L' then K_RIGHT
  else K_LEFT

/-- Membership test for `move in neighbors` on a key input. -/
def isDirKey (k : Nat) : Bool :=
  k == K_UP || k == K_DOWN || k == K_RIGHT || k == K_LEFT

/-- The state of the `Grid` class that the core logic touches.  `prev_moves`
and `prev_board` mirror `previous_state['moves_made']` and
`previous_state['scrambled_board']`. -/
structure Grid where
  width : Nat
  height : Nat
  grid : Board
  empty_index : Int × Int
  moves_made : List Char
  has_started : Bool
  playback_mode : Bool
  prev_moves : Option (List Char)
  prev_board : Option Board
  scrambled_board : Board
deriving DecidableEq

/-- Method form of `get_new_grid`, reading `self.width`, `self.height` and
`self.empty_index`. -/
def Grid.get_new_grid (s : Grid) : Board :=
  SlidingPuzzle.get_new_grid s.width s.height s.empty_index

/-- `Grid.has_won`: `is_ordered_grid(get_tile_values(self.grid))`, i.e. the
value matrix equals `self.get_new_grid()` (`get_tile_values` is the identity
on a value matrix).  Note that it does not consult `has_started`. -/
def Grid.has_won (s : Grid) : Bool :=
  decide (s.grid = s.get_new_grid)

/-- `Grid.is_index_in_bounds`. -/
def Grid.is_index_in_bounds (s : Grid) (x y : Int) : Bool :=
  boundsOk s.grid x y

/-- `Grid.make_move(move, shuffle)`.  Returns the updated state together with
a flag recording whether `save_state()` ran (the persisted-record write).
The swap, the `empty_index` update, the conditional log append and the
win-check-then-save sequence follow the source line by line; sound effects
are not modelled. -/
def Grid.make_move (s : Grid) (move : MoveInput) (shuffle : Bool) : Grid × Bool :=
  let x := s.empty_index.1
  let y := s.empty_index.2
  let key : Option Nat :=
    match move with
    | MoveInput.key k => some k
    | MoveInput.letter c => letter_convert c
  match key with
  | none => (s, false)
  | some k =>
    if isDirKey k then
      let n := neighbors x y k
      if s.is_index_in_bounds n.1 n.2 then
        let g2 := setCell (setCell s.grid x y (getCell s.grid n.1 n.2)) n.1 n.2
          (getCell s.grid x y)
        let s2 : Grid := { s with
          grid := g2
          empty_index := n
          moves_made := if shuffle then s.moves_made else s.moves_made ++ [move_map k] }
        if s2.has_won && s2.has_started then
          ({ s2 with prev_moves := some s2.moves_made,
                     prev_board := some s2.scrambled_board }, true)
        else
          (s2, false)
      else (s, false)
    else (s, false)

/-- Fold a list of key inputs through `make_move` with a fixed shuffle flag. -/
def Grid.apply_keys (s : Grid) (ks : List Nat) (shuffle : Bool) : Grid :=
  ks.foldl (fun st k => (st.make_move (MoveInput.key k) shuffle).1) s

/-- `Grid.reverse_solve(solve)`: applies the inverse of each logged letter in
reverse insertion order, with the shuffle flag set. -/
def Grid.reverse_solve (s : Grid) (solve : List Char) : Grid :=
  solve.reverse.foldl (fun st m => (st.make_move (MoveInput.key (inverse m)) true).1) s

/-- `Grid.shuffle`: 10000 random draws applied through `make_move` with the
shuffle flag set.  `random.choice` is modelled by the injected `draw`
function giving the key chosen at each iteration. -/
def Grid.shuffle (s : Grid) (draw : Nat → Nat) : Grid :=
  (List.range 10000).foldl (fun st i => (st.make_move (MoveInput.key (draw i)) true).1) s

/-- `Grid.reset`: shuffle, clear the move log, leave playback mode. -/
def Grid.reset (s : Grid) (draw : Nat → Nat) : Grid :=
  { s.shuffle draw with moves_made := [], playback_mode := false }

/-- `Grid.playback_reset`: blank index back to the bottom-right corner, move
log cleared. -/
def Grid.playback_reset (s : Grid) : Grid :=
  { s with empty_index := (((s.width : Int) - 1, (s.height : Int) - 1)), moves_made := [] }

/-- `Grid.load_playback_grid(solve)`: rebuild the ordered grid (at the
current `empty_index`), then run `reverse_solve` (`process_grid` only wraps
values into tiles and is the identity on the value matrix). -/
def Grid.load_playback_grid (s : Grid) (solve : List Char) : Grid :=
  Grid.reverse_solve { s with grid := s.get_new_grid } solve

/-- The forward playback loop of `Application.update`: each frame pops the
next logged letter and feeds it to `make_move` (with the default
`shuffle=False`). -/
def replay_forward (s : Grid) (moves : List Char) : Grid :=
  moves.foldl (fun st c => (st.make_move (MoveInput.letter c) false).1) s

/-- The four directional moves of the spec. -/
inductive Dir
  | up
  | down
  | left
  | right
deriving DecidableEq

/-- The pygame key delivering each directional move. -/
def dirKey : Dir → Nat
  | Dir.up => K_UP
  | Dir.down => K_DOWN
  | Dir.left => K_LEFT
  | Dir.right => K_RIGHT

/-- Modelled from the claim: the cell a move in each direction examines,
"Up examines the cell one row below blank_position (x, y+1), Down examines
(x, y-1), Left examines (x+1, y), and Right examines (x-1, y)". -/
def specNeighbor (x y : Int) : Dir → Int × Int
  | Dir.up => (x, y + 1)
  | Dir.down => (x, y - 1)
  | Dir.left => (x + 1, y)
  | Dir.right => (x - 1, y)

/-- Modelled from the claim: swapping the blank's cell with the cell at `q`. -/
def swap_cells (g : Board) (p q : Int × Int) : Board :=
  setCell (setCell g p.1 p.2 (getCell g q.1 q.2)) q.1 q.2 (getCell g p.1 p.2)

/-- Whether `make_move` recognises an input: a key input must be one of the
four arrow keys, a letter input one of the four move letters. -/
def recognized (m : MoveInput) : Bool :=
  match m with
  | MoveInput.key k => isDirKey k
  | MoveInput.letter c => (letter_convert c).isSome

/-- Whether `make_move` would accept key `k` in state `s`: the key is a
direction key and the examined neighbor is in bounds. -/
def Grid.accepts (s : Grid) (k : Nat) : Bool :=
  isDirKey k &&
    s.is_index_in_bounds (neighbors s.empty_index.1 s.empty_index.2 k).1
      (neighbors s.empty_index.1 s.empty_index.2 k).2

/-- Every key of the list is accepted along the trajectory it generates. -/
def Grid.all_accepted : Grid → List Nat → Bool
  | _, [] => true
  | s, k :: ks => s.accepts k && Grid.all_accepted (s.make_move (MoveInput.key k) false).1 ks

/-- The board-determining part of a state: the value matrix and the blank
index. -/
def boardOf (s : Grid) : Board × (Int × Int) :=
  (s.grid, s.empty_index)

/-- Rows of the value matrix all have the length the bounds check uses
(the length of row 0). -/
def uniformRows (g : Board) : Prop :=
  ∀ i < g.length, (g.getD i []).length = (g.headD []).length

/-- The board well-formedness the move lemmas need: all rows have the
length the bounds check reads, and the blank index is in bounds. -/
def wfBoard (s : Grid) : Prop :=
  uniformRows s.grid ∧ boundsOk s.grid s.empty_index.1 s.empty_index.2 = true

instance (g : Board) : Decidable (uniformRows g) := by
  unfold uniformRows
  infer_instance

instance (s : Grid) : Decidable (wfBoard s) := by
  unfold wfBoard
  exact instDecidableAnd

/-- Modelled from the claim: the inverse direction on keys,
`inverse(Up)=Down, inverse(Down)=Up, inverse(Left)=Right,
inverse(Right)=Left` (only meaningful on the four direction keys). -/
def inverse_key (k : Nat) : Nat :=
  if k = K_UP then K_DOWN
  else if k = K_DOWN then K_UP
  else if k = K_RIGHT then K_LEFT
  else K_RIGHT

/-- Whether `make_move` accepts the given input in state `s` (the input is
recognised and the examined neighbor is in bounds). -/
def Grid.accepts_input (s : Grid) (m : MoveInput) : Bool :=
  match m with
  | MoveInput.key k => s.accepts k
  | MoveInput.letter c =>
    match letter_convert c with
    | some k => s.accepts k
    | none => false

/-- The state reached by the accepted branch of `make_move` before the win
check: grid swapped, blank index moved, the move letter appended unless the
shuffle flag is set. -/
def moved (s : Grid) (k : Nat) (sh : Bool) : Grid :=
  { s with
    grid := swap_cells s.grid s.empty_index (neighbors s.empty_index.1 s.empty_index.2 k)
    empty_index := neighbors s.empty_index.1 s.empty_index.2 k
    moves_made := if sh then s.moves_made else s.moves_made ++ [move_map k] }

/-- A 3-wide, 1-high board in the canonical solved state, blank rightmost. -/
def solved3x1 : Grid :=
  { width := 3, height := 1, grid := [["1", "2", ""]], empty_index := (2, 0),
    moves_made := [], has_started := true, playback_mode := false,
    prev_moves := none, prev_board := none, scrambled_board := [["1", "2", ""]] }

/-- A freshly constructed 2x2 board: canonical cell arrangement, the
`has_started` flag still false (the state during `__init__` right after
`get_new_grid`, before the constructor sets `has_started = True`). -/
def fresh2x2 : Grid :=
  { width := 2, height := 2, grid := [["1", "2"], ["3", ""]], empty_index := (1, 1),
    moves_made := [], has_started := false, playback_mode := false,
    prev_moves := none, prev_board := none, scrambled_board := [["1", "2"], ["3", ""]] }

/-- The same 2x2 board once the session has started. -/
def started2x2 : Grid :=
  { fresh2x2 with has_started := true }

/-- A started 2x1 board one accepted move away from the solved arrangement. -/
def preWin2x1 : Grid :=
  { width := 2, height := 1, grid := [["", "1"]], empty_index := (0, 0),
    moves_made := [], has_started := true, playback_mode := false,
    prev_moves := none, prev_board := none, scrambled_board := [["", "1"]] }

/-- A started 2x1 board in the canonical solved state. -/
def solved2x1 : Grid :=
  { width := 2, height := 1, grid := [["1", ""]], empty_index := (1, 0),
    moves_made := [], has_started := true, playback_mode := false,
    prev_moves := none, prev_board := none, scrambled_board := [["1", ""]] }

/-! ### Basic cell-access lemmas -/

theorem headD_eq_getD {α : Type _} (l : List α) (d : α) : l.headD d = l.getD 0 d := by
  cases l <;> rfl

theorem getD_set_same {α : Type _} {l : List α} {i : Nat} {v d : α} (h : i < l.length) :
    (l.set i v).getD i d = v := by
  simp [List.getD_eq_getElem?_getD, List.getElem?_set_self h]

theorem getD_set_ne {α : Type _} {l : List α} {i j : Nat} {v d : α} (h : i ≠ j) :
    (l.set i v).getD j d = l.getD j d := by
  simp [List.getD_eq_getElem?_getD, List.getElem?_set_ne h]

theorem set_getElem_self {α : Type _} {l : List α} {i : Nat} (h : i < l.length) :
    l.set i l[i] = l := by
  apply List.ext_getElem (by simp)
  intro n h1 h2
  by_cases hn : i = n
  · subst hn; simp
  · rw [List.getElem_set_ne hn]

theorem set_getD_self {α : Type _} {l : List α} {i : Nat} {d : α} (h : i < l.length) :
    l.set i (l.getD i d) = l := by
  have : l.getD i d = l[i] := by simp [List.getD_eq_getElem?_getD, List.getElem?_eq_getElem h]
  rw [this, set_getElem_self h]

theorem getCell_setCell_self {g : Board} {x y : Int} {v : String}
    (hy : y.toNat < g.length) (hx : x.toNat < (g.getD y.toNat []).length) :
    getCell (setCell g x y v) x y = v := by
  unfold getCell setCell
  rw [getD_set_same hy, getD_set_same hx]

theorem getCell_setCell_ne {g : Board} {x y u v : Int} {w : String}
    (h : x.toNat ≠ u.toNat ∨ y.toNat ≠ v.toNat) :
    getCell (setCell g x y w) u v = getCell g u v := by
  unfold getCell setCell
  rcases h with h | h
  · by_cases hy : y.toNat = v.toNat
    · rw [← hy]
      by_cases hl : y.toNat < g.length
      · rw [getD_set_same hl, getD_set_ne h]
      · rw [List.set_eq_of_length_le (by omega)]
    · rw [getD_set_ne hy]
  · rw [getD_set_ne h]

theorem length_setCell (g : Board) (x y : Int) (v : String) :
    (setCell g x y v).length = g.length := by
  simp [setCell]

theorem rowlen_setCell (g : Board) (x y : Int) (v : String) (j : Nat) :
    ((setCell g x y v).getD j []).length = (g.getD j []).length := by
  unfold setCell
  by_cases hj : y.toNat = j
  · subst hj
    by_cases hl : y.toNat < g.length
    · rw [getD_set_same hl, List.length_set]
    · rw [List.set_eq_of_length_le (by omega)]
  · rw [getD_set_ne hj]

theorem headD_setCell_length (g : Board) (x y : Int) (v : String) :
    ((setCell g x y v).headD []).length = ((g.headD []) : List String).length := by
  rw [headD_eq_getD, headD_eq_getD, rowlen_setCell]

theorem uniformRows_setCell {g : Board} (hu : uniformRows g) (x y : Int) (v : String) :
    uniformRows (setCell g x y v) := by
  intro i hi
  rw [length_setCell] at hi
  rw [rowlen_setCell, headD_setCell_length]
  exact hu i hi

theorem boundsOk_setCell (g : Board) (x y u v : Int) (w : String) :
    boundsOk (setCell g x y w) u v = boundsOk g u v := by
  unfold boundsOk
  rw [length_setCell, headD_setCell_length]

theorem validPos_of_boundsOk {g : Board} {x y : Int}
    (hu : uniformRows g) (hb : boundsOk g x y = true) :
    y.toNat < g.length ∧ x.toNat < (g.getD y.toNat []).length := by
  simp only [boundsOk, Bool.and_eq_true, decide_eq_true_eq] at hb
  obtain ⟨⟨⟨hx0, hxw⟩, hy0⟩, hyh⟩ := hb
  have hy : y.toNat < g.length := by omega
  refine ⟨hy, ?_⟩
  have := hu y.toNat hy
  omega



theorem isDirKey_cases {k : Nat} (h : isDirKey k = true) :
    k = K_UP ∨ k = K_DOWN ∨ k = K_RIGHT ∨ k = K_LEFT := by
  simpa [isDirKey, or_assoc] using h

theorem has_won_prev_update (s : Grid) (mm : List Char) (bb : Board) :
    ({ s with prev_moves := some mm, prev_board := some bb } : Grid).has_won = s.has_won := rfl

theorem has_won_set_started (s : Grid) (b : Bool) :
    ({ s with has_started := b } : Grid).has_won = s.has_won := rfl

theorem make_move_unrecognized (s : Grid) (m : MoveInput) (sh : Bool)
    (h : recognized m = false) :
    s.make_move m sh = (s, false) := by
  cases m with
  | key k =>
    simp only [recognized] at h
    simp [Grid.make_move, h]
  | letter c =>
    cases hc : letter_convert c with
    | none => simp [Grid.make_move, hc]
    | some k => rw [recognized, hc] at h; simp at h

theorem make_move_letter (s : Grid) (c : Char) (k : Nat) (sh : Bool)
    (h : letter_convert c = some k) :
    s.make_move (MoveInput.letter c) sh = s.make_move (MoveInput.key k) sh := by
  simp [Grid.make_move, h]

theorem make_move_not_accepted (s : Grid) (k : Nat) (sh : Bool)
    (h : s.accepts k = false) :
    s.make_move (MoveInput.key k) sh = (s, false) := by
  by_cases hd : isDirKey k
  · rw [Grid.accepts, hd, Bool.true_and] at h
    simp [Grid.make_move, hd, h]
  · simp only [Bool.not_eq_true] at hd
    simp [Grid.make_move, hd]

theorem make_move_accepted (s : Grid) (k : Nat) (sh : Bool)
    (hacc : s.accepts k = true) :
    s.make_move (MoveInput.key k) sh =
      if (moved s k sh).has_won && s.has_started then
        ({ moved s k sh with prev_moves := some (moved s k sh).moves_made,
                             prev_board := some s.scrambled_board }, true)
      else (moved s k sh, false) := by
  have hd : isDirKey k = true := by
    rw [Grid.accepts, Bool.and_eq_true] at hacc; exact hacc.1
  have hb := by rw [Grid.accepts, hd, Bool.true_and] at hacc; exact hacc
  simp only [Grid.make_move, hd, if_true, hb]
  rfl

theorem boardOf_make_move (s : Grid) (k : Nat) (sh : Bool) :
    boardOf (s.make_move (MoveInput.key k) sh).1 =
      if s.accepts k = true then
        (swap_cells s.grid s.empty_index (neighbors s.empty_index.1 s.empty_index.2 k),
         neighbors s.empty_index.1 s.empty_index.2 k)
      else boardOf s := by
  by_cases hacc : s.accepts k = true
  · rw [if_pos hacc, make_move_accepted s k sh hacc]
    cases hc : ((moved s k sh).has_won && s.has_started) <;> simp [hc, boardOf, moved]
  · rw [if_neg hacc, make_move_not_accepted s k sh (by simpa using hacc)]

theorem moves_made_make_move_shuffle (s : Grid) (m : MoveInput) :
    ((s.make_move m true).1).moves_made = s.moves_made := by
  cases m with
  | key k =>
    by_cases hacc : s.accepts k = true
    · rw [make_move_accepted s k true hacc]
      cases hc : ((moved s k true).has_won && s.has_started) <;> simp [hc, moved]
    · rw [make_move_not_accepted s k true (by simpa using hacc)]
  | letter c =>
    cases hc : letter_convert c with
    | none => simp [Grid.make_move, hc]
    | some k =>
      rw [make_move_letter s c k true hc]
      by_cases hacc : s.accepts k = true
      · rw [make_move_accepted s k true hacc]
        cases hw : ((moved s k true).has_won && s.has_started) <;> simp [hw, moved]
      · rw [make_move_not_accepted s k true (by simpa using hacc)]

theorem make_move_snd_eq_key (s : Grid) (k : Nat) (sh : Bool) :
    (s.make_move (MoveInput.key k) sh).2 =
      (s.accepts k && (s.make_move (MoveInput.key k) sh).1.has_won && s.has_started) := by
  by_cases hacc : s.accepts k = true
  · rw [make_move_accepted s k sh hacc, hacc]
    cases hw : (moved s k sh).has_won <;> cases hs : s.has_started <;>
      simp [hw, hs, has_won_prev_update]
  · have hacc' : s.accepts k = false := by simpa using hacc
    rw [make_move_not_accepted s k sh hacc', hacc']
    simp

theorem make_move_snd_eq (s : Grid) (m : MoveInput) (sh : Bool) :
    (s.make_move m sh).2 =
      (s.accepts_input m && (s.make_move m sh).1.has_won && s.has_started) := by
  cases m with
  | key k => rw [Grid.accepts_input]; exact make_move_snd_eq_key s k sh
  | letter c =>
    cases hc : letter_convert c with
    | none => simp [Grid.make_move, Grid.accepts_input, hc]
    | some k =>
      rw [make_move_letter s c k sh hc]
      rw [Grid.accepts_input]
      rw [hc]
      exact make_move_snd_eq_key s k sh

theorem accepts_congr {s t : Grid} (h : boardOf s = boardOf t) (k : Nat) :
    s.accepts k = t.accepts k := by
  have hg : s.grid = t.grid := congrArg Prod.fst h
  have he : s.empty_index = t.empty_index := congrArg Prod.snd h
  rw [Grid.accepts, Grid.accepts, Grid.is_index_in_bounds, Grid.is_index_in_bounds, hg, he]

theorem boardOf_make_move_congr {s t : Grid} (h : boardOf s = boardOf t)
    (k : Nat) (sh1 sh2 : Bool) :
    boardOf (s.make_move (MoveInput.key k) sh1).1 = boardOf (t.make_move (MoveInput.key k) sh2).1 := by
  have hg : s.grid = t.grid := congrArg Prod.fst h
  have he : s.empty_index = t.empty_index := congrArg Prod.snd h
  rw [boardOf_make_move, boardOf_make_move, accepts_congr h, hg, he, h]


theorem boundsOk_nonneg {g : Board} {x y : Int} (h : boundsOk g x y = true) :
    0 ≤ x ∧ 0 ≤ y := by
  simp only [boundsOk, Bool.and_eq_true, decide_eq_true_eq] at h
  exact ⟨h.1.1.1, h.1.2⟩

theorem isDirKey_inverse_key {k : Nat} (hd : isDirKey k = true) :
    isDirKey (inverse_key k) = true := by
  rcases isDirKey_cases hd with h | h | h | h <;> subst h <;> decide

theorem neighbors_inverse_key (x y : Int) {k : Nat} (hd : isDirKey k = true) :
    neighbors (neighbors x y k).1 (neighbors x y k).2 (inverse_key k) = (x, y) := by
  rcases isDirKey_cases hd with h | h | h | h <;> subst h <;>
    simp [neighbors, inverse_key, K_UP, K_DOWN, K_RIGHT, K_LEFT]

theorem neighbors_toNat_ne (x y : Int) {k : Nat} (hd : isDirKey k = true)
    (hx : 0 ≤ x) (hy : 0 ≤ y)
    (hnx : 0 ≤ (neighbors x y k).1) (hny : 0 ≤ (neighbors x y k).2) :
    x.toNat ≠ (neighbors x y k).1.toNat ∨ y.toNat ≠ (neighbors x y k).2.toNat := by
  rcases isDirKey_cases hd with h | h | h | h <;> subst h <;>
    simp only [neighbors, K_UP, K_DOWN, K_RIGHT, K_LEFT] at hnx hny ⊢ <;>
    simp_all <;> omega

theorem setCell_setCell_same (g : Board) (x y : Int) (v w : String)
    (hy : y.toNat < g.length) :
    setCell (setCell g x y v) x y w = setCell g x y w := by
  unfold setCell
  rw [getD_set_same hy, List.set_set, List.set_set]

theorem setCell_getCell_self (g : Board) (x y : Int)
    (hy : y.toNat < g.length) (hx : x.toNat < (g.getD y.toNat []).length) :
    setCell g x y (getCell g x y) = g := by
  unfold setCell getCell
  rw [set_getD_self hx, set_getD_self hy]

theorem setCell_setCell_restore (g : Board) (x y u v : Int) (w : String)
    (hne : x.toNat ≠ u.toNat ∨ y.toNat ≠ v.toNat)
    (hvy : v.toNat < g.length) (hux : u.toNat < (g.getD v.toNat []).length) :
    setCell (setCell g x y w) u v (getCell g u v) = setCell g x y w := by
  have h3 : getCell (setCell g x y w) u v = getCell g u v := getCell_setCell_ne hne
  rw [← h3]
  exact setCell_getCell_self _ _ _ (by rw [length_setCell]; exact hvy)
    (by rw [rowlen_setCell]; exact hux)

theorem swap_back (g : Board) (p n : Int × Int)
    (hu : uniformRows g) (hp : boundsOk g p.1 p.2 = true) (hn : boundsOk g n.1 n.2 = true)
    (hne : p.1.toNat ≠ n.1.toNat ∨ p.2.toNat ≠ n.2.toNat) :
    swap_cells (swap_cells g p n) n p = g := by
  obtain ⟨hpy, hpx⟩ := validPos_of_boundsOk hu hp
  obtain ⟨hny, hnx⟩ := validPos_of_boundsOk hu hn
  have hne' : n.1.toNat ≠ p.1.toNat ∨ n.2.toNat ≠ p.2.toNat := by tauto
  unfold swap_cells
  have h1 : getCell (setCell (setCell g p.1 p.2 (getCell g n.1 n.2)) n.1 n.2 (getCell g p.1 p.2)) p.1 p.2
      = getCell g n.1 n.2 := by
    rw [getCell_setCell_ne hne']
    exact getCell_setCell_self hpy hpx
  have h2 : getCell (setCell (setCell g p.1 p.2 (getCell g n.1 n.2)) n.1 n.2 (getCell g p.1 p.2)) n.1 n.2
      = getCell g p.1 p.2 := by
    apply getCell_setCell_self
    · rw [length_setCell]; exact hny
    · rw [rowlen_setCell]; exact hnx
  rw [h1, h2,
      setCell_setCell_same _ _ _ _ _ (by rw [length_setCell]; exact hny),
      setCell_setCell_restore g p.1 p.2 n.1 n.2 _ hne hny hnx,
      setCell_setCell_same _ _ _ _ _ hpy]
  exact setCell_getCell_self g p.1 p.2 hpy hpx


theorem wfBoard_congr {s t : Grid} (h : boardOf s = boardOf t) (hw : wfBoard s) :
    wfBoard t := by
  have hg : s.grid = t.grid := congrArg Prod.fst h
  have he : s.empty_index = t.empty_index := congrArg Prod.snd h
  rw [wfBoard, ← hg, ← he]
  exact hw

theorem all_accepted_congr {s t : Grid} (h : boardOf s = boardOf t) (ks : List Nat) :
    s.all_accepted ks = t.all_accepted ks := by
  induction ks generalizing s t with
  | nil => rfl
  | cons k ks ih =>
    rw [Grid.all_accepted, Grid.all_accepted, accepts_congr h,
        ih (boardOf_make_move_congr h k false false)]

theorem all_accepted_dir {ks : List Nat} : ∀ {s : Grid}, s.all_accepted ks = true →
    ∀ k ∈ ks, isDirKey k = true := by
  induction ks with
  | nil => intro s _ k hk; cases hk
  | cons k0 ks ih =>
    intro s h k hk
    rw [Grid.all_accepted, Bool.and_eq_true] at h
    rcases List.mem_cons.mp hk with rfl | hk
    · rw [Grid.accepts, Bool.and_eq_true] at h
      exact h.1.1
    · exact ih h.2 k hk

theorem wfBoard_make_move_key (s : Grid) (k : Nat) (sh : Bool) (hw : wfBoard s) :
    wfBoard (s.make_move (MoveInput.key k) sh).1 := by
  obtain ⟨hu, he⟩ := hw
  by_cases hacc : s.accepts k = true
  · have hb := by rw [Grid.accepts, Bool.and_eq_true] at hacc; exact hacc.2
    have hB := boardOf_make_move s k sh
    rw [if_pos hacc] at hB
    have hg : ((s.make_move (MoveInput.key k) sh).1).grid
        = swap_cells s.grid s.empty_index (neighbors s.empty_index.1 s.empty_index.2 k) :=
      congrArg Prod.fst hB
    have hee : ((s.make_move (MoveInput.key k) sh).1).empty_index
        = neighbors s.empty_index.1 s.empty_index.2 k :=
      congrArg Prod.snd hB
    constructor
    · rw [hg]
      exact uniformRows_setCell (uniformRows_setCell hu _ _ _) _ _ _
    · rw [hg, hee, swap_cells, boundsOk_setCell, boundsOk_setCell]
      rw [Grid.is_index_in_bounds] at hb
      exact hb
  · rw [make_move_not_accepted s k sh (by simpa using hacc)]
    exact ⟨hu, he⟩

theorem wfBoard_make_move (s : Grid) (m : MoveInput) (sh : Bool) (hw : wfBoard s) :
    wfBoard (s.make_move m sh).1 := by
  cases m with
  | key k => exact wfBoard_make_move_key s k sh hw
  | letter c =>
    cases hc : letter_convert c with
    | none =>
      rw [make_move_unrecognized s _ sh (by simp [recognized, hc])]
      exact hw
    | some k =>
      rw [make_move_letter s c k sh hc]
      exact wfBoard_make_move_key s k sh hw

theorem make_move_round_trip (s : Grid) (k : Nat) (sh1 sh2 : Bool)
    (hw : wfBoard s) (hacc : s.accepts k = true) :
    boardOf (((s.make_move (MoveInput.key k) sh1).1).make_move
        (MoveInput.key (inverse_key k)) sh2).1 = boardOf s := by
  obtain ⟨hu, he⟩ := hw
  have hd : isDirKey k = true := by
    rw [Grid.accepts, Bool.and_eq_true] at hacc; exact hacc.1
  have hb : boundsOk s.grid (neighbors s.empty_index.1 s.empty_index.2 k).1
      (neighbors s.empty_index.1 s.empty_index.2 k).2 = true := by
    rw [Grid.accepts, hd, Bool.true_and, Grid.is_index_in_bounds] at hacc; exact hacc
  set p := s.empty_index with hp
  set n := neighbors p.1 p.2 k with hn
  have hB := boardOf_make_move s k sh1
  rw [if_pos hacc] at hB
  set t := (s.make_move (MoveInput.key k) sh1).1 with ht
  have htg : t.grid = swap_cells s.grid p n := congrArg Prod.fst hB
  have hte : t.empty_index = n := congrArg Prod.snd hB
  -- the inverse move is accepted in t
  have hnb : neighbors t.empty_index.1 t.empty_index.2 (inverse_key k) = p := by
    rw [hte, hn, neighbors_inverse_key p.1 p.2 hd]
  have hacc2 : t.accepts (inverse_key k) = true := by
    rw [Grid.accepts, isDirKey_inverse_key hd, Bool.true_and, Grid.is_index_in_bounds, hnb,
        htg, swap_cells, boundsOk_setCell, boundsOk_setCell]
    exact he
  have hB2 := boardOf_make_move t (inverse_key k) sh2
  rw [if_pos hacc2, hnb, htg, hte] at hB2
  rw [hB2]
  have hnn : p.1.toNat ≠ n.1.toNat ∨ p.2.toNat ≠ n.2.toNat := by
    obtain ⟨hx0, hy0⟩ := boundsOk_nonneg he
    obtain ⟨hnx0, hny0⟩ := boundsOk_nonneg hb
    exact neighbors_toNat_ne p.1 p.2 hd hx0 hy0 hnx0 hny0
  rw [swap_back s.grid p n hu he hb hnn, boardOf]

theorem apply_keys_cons (s : Grid) (k : Nat) (ks : List Nat) (sh : Bool) :
    s.apply_keys (k :: ks) sh = ((s.make_move (MoveInput.key k) sh).1).apply_keys ks sh := rfl

theorem apply_keys_append (s : Grid) (ks1 ks2 : List Nat) (sh : Bool) :
    s.apply_keys (ks1 ++ ks2) sh = (s.apply_keys ks1 sh).apply_keys ks2 sh := by
  rw [Grid.apply_keys, Grid.apply_keys, Grid.apply_keys, List.foldl_append]

theorem boardOf_apply_keys_congr {s t : Grid} (h : boardOf s = boardOf t)
    (ks : List Nat) (sh1 sh2 : Bool) :
    boardOf (s.apply_keys ks sh1) = boardOf (t.apply_keys ks sh2) := by
  induction ks generalizing s t with
  | nil => exact h
  | cons k ks ih => exact ih (boardOf_make_move_congr h k sh1 sh2)

theorem apply_keys_round_trip (ks : List Nat) : ∀ (s : Grid) (sh1 sh2 : Bool),
    wfBoard s → s.all_accepted ks = true →
    boardOf ((s.apply_keys ks sh1).apply_keys (ks.reverse.map inverse_key) sh2) = boardOf s := by
  induction ks with
  | nil => intro s sh1 sh2 _ _; rfl
  | cons k ks ih =>
    intro s sh1 sh2 hw hacc
    rw [Grid.all_accepted, Bool.and_eq_true] at hacc
    obtain ⟨hk, hrest⟩ := hacc
    rw [apply_keys_cons, List.reverse_cons, List.map_append, apply_keys_append]
    set t := (s.make_move (MoveInput.key k) sh1).1 with ht
    have hbt : boardOf t = boardOf ((s.make_move (MoveInput.key k) false).1) :=
      boardOf_make_move_congr rfl k sh1 false
    have hrest' : t.all_accepted ks = true := by
      rw [all_accepted_congr hbt]; exact hrest
    have hwt : wfBoard t := wfBoard_make_move s (MoveInput.key k) sh1 hw
    have hmain := ih t sh1 sh2 hwt hrest'
    calc boardOf (((t.apply_keys ks sh1).apply_keys (ks.reverse.map inverse_key) sh2).apply_keys
            [inverse_key k] sh2)
        = boardOf (t.apply_keys [inverse_key k] sh2) :=
          boardOf_apply_keys_congr hmain [inverse_key k] sh2 sh2
      _ = boardOf ((t.make_move (MoveInput.key (inverse_key k)) sh2).1) := rfl
      _ = boardOf s := make_move_round_trip s k sh1 sh2 hw hk


theorem reverse_solve_eq_apply_keys (s : Grid) (solve : List Char) :
    s.reverse_solve solve = s.apply_keys (solve.reverse.map inverse) true := by
  rw [Grid.reverse_solve, Grid.apply_keys, List.foldl_map]

theorem shuffle_eq_apply_keys (s : Grid) (draw : Nat → Nat) :
    s.shuffle draw = s.apply_keys ((List.range 10000).map draw) true := by
  rw [Grid.shuffle, Grid.apply_keys, List.foldl_map]

theorem inverse_move_map {k : Nat} (hd : isDirKey k = true) :
    inverse (move_map k) = inverse_key k := by
  rcases isDirKey_cases hd with h | h | h | h <;> subst h <;> decide

theorem letter_convert_move_map {k : Nat} (hd : isDirKey k = true) :
    letter_convert (move_map k) = some k := by
  rcases isDirKey_cases hd with h | h | h | h <;> subst h <;> decide

theorem replay_forward_eq_apply_keys (ks : List Nat) : ∀ (s : Grid),
    (∀ k ∈ ks, isDirKey k = true) →
    replay_forward s (ks.map move_map) = s.apply_keys ks false := by
  induction ks with
  | nil => intro s _; rfl
  | cons k ks ih =>
    intro s h
    have hk := h k (List.mem_cons_self k ks)
    have hstep : replay_forward s (move_map k :: ks.map move_map)
        = replay_forward ((s.make_move (MoveInput.letter (move_map k)) false).1)
            (ks.map move_map) := rfl
    rw [List.map_cons, hstep, make_move_letter _ _ _ _ (letter_convert_move_map hk)]
    exact ih _ (fun k2 hk2 => h k2 (List.mem_cons_of_mem _ hk2))

theorem dims_make_move_key (s : Grid) (k : Nat) (sh : Bool) :
    ((s.make_move (MoveInput.key k) sh).1).width = s.width ∧
    ((s.make_move (MoveInput.key k) sh).1).height = s.height := by
  by_cases hacc : s.accepts k = true
  · rw [make_move_accepted s k sh hacc]
    cases hc : ((moved s k sh).has_won && s.has_started) <;> simp [hc, moved]
  · rw [make_move_not_accepted s k sh (by simpa using hacc)]
    exact ⟨rfl, rfl⟩

theorem dims_make_move (s : Grid) (m : MoveInput) (sh : Bool) :
    ((s.make_move m sh).1).width = s.width ∧ ((s.make_move m sh).1).height = s.height := by
  cases m with
  | key k => exact dims_make_move_key s k sh
  | letter c =>
    cases hc : letter_convert c with
    | none =>
      rw [make_move_unrecognized s _ sh (by simp [recognized, hc])]
      exact ⟨rfl, rfl⟩
    | some k =>
      rw [make_move_letter s c k sh hc]
      exact dims_make_move_key s k sh

theorem dims_apply_keys (ks : List Nat) : ∀ (s : Grid) (sh : Bool),
    (s.apply_keys ks sh).width = s.width ∧ (s.apply_keys ks sh).height = s.height := by
  induction ks with
  | nil => intro s sh; exact ⟨rfl, rfl⟩
  | cons k ks ih =>
    intro s sh
    rw [apply_keys_cons]
    obtain ⟨h1, h2⟩ := ih ((s.make_move (MoveInput.key k) sh).1) sh
    obtain ⟨h3, h4⟩ := dims_make_move_key s k sh
    exact ⟨h1.trans h3, h2.trans h4⟩

theorem moves_made_apply_keys_shuffle (ks : List Nat) : ∀ (s : Grid),
    (s.apply_keys ks true).moves_made = s.moves_made := by
  induction ks with
  | nil => intro s; rfl
  | cons k ks ih =>
    intro s
    rw [apply_keys_cons, ih, moves_made_make_move_shuffle]


theorem count_set {α : Type _} [DecidableEq α] (l : List α) (i : Nat) (v : α)
    (h : i < l.length) (c : α) :
    List.count c (l.set i v) + List.count c [l.get ⟨i, h⟩]
      = List.count c l + List.count c [v] := by
  rw [List.set_eq_take_cons_drop v h]
  conv_rhs => rw [← List.take_append_drop i l]
  have hd : l.drop i = l.get ⟨i, h⟩ :: l.drop (i + 1) := (List.getElem_cons_drop l i h).symm
  rw [hd]
  simp only [List.count_append, List.count_cons, List.count_nil]
  split <;> split <;> omega

theorem getCell_eq_getElem {g : Board} {x y : Int}
    (hx : x.toNat < (g.getD y.toNat []).length) :
    getCell g x y = (g.getD y.toNat []).get ⟨x.toNat, hx⟩ := by
  unfold getCell
  rw [List.getD_eq_getElem?_getD, List.getElem?_eq_getElem hx]
  rfl

theorem getD_eq_get {α : Type _} {l : List α} {i : Nat} {d : α} (h : i < l.length) :
    l.getD i d = l.get ⟨i, h⟩ := by
  rw [List.getD_eq_getElem?_getD, List.getElem?_eq_getElem h]
  rfl

theorem count_flatten_setCell (g : Board) (x y : Int) (v : String)
    (hy : y.toNat < g.length) (hx : x.toNat < (g.getD y.toNat []).length) (c : String) :
    List.count c (setCell g x y v).flatten + List.count c [getCell g x y]
      = List.count c g.flatten + List.count c [v] := by
  rw [setCell]
  rw [List.set_eq_take_cons_drop _ hy]
  conv_rhs => rw [← List.take_append_drop y.toNat g]
  have hd : g.drop y.toNat = g.get ⟨y.toNat, hy⟩ :: g.drop (y.toNat + 1) :=
    (List.getElem_cons_drop g y.toNat hy).symm
  rw [hd]
  simp only [List.flatten_append, List.flatten_cons, List.count_append]
  have hrow : g.getD y.toNat [] = g.get ⟨y.toNat, hy⟩ := getD_eq_get hy
  have hcell : getCell g x y = (g.getD y.toNat []).get ⟨x.toNat, hx⟩ := getCell_eq_getElem hx
  have hcnt := count_set (g.getD y.toNat []) x.toNat v hx c
  rw [hcell, ← hrow]
  simp only [List.count_cons, List.count_nil] at hcnt ⊢
  omega

theorem flatten_swap_cells_perm (g : Board) (p n : Int × Int)
    (hu : uniformRows g) (hp : boundsOk g p.1 p.2 = true) (hn : boundsOk g n.1 n.2 = true)
    (hne : p.1.toNat ≠ n.1.toNat ∨ p.2.toNat ≠ n.2.toNat) :
    (swap_cells g p n).flatten.Perm g.flatten := by
  obtain ⟨hpy, hpx⟩ := validPos_of_boundsOk hu hp
  obtain ⟨hny, hnx⟩ := validPos_of_boundsOk hu hn
  rw [List.perm_iff_count]
  intro c
  unfold swap_cells
  have h1 := count_flatten_setCell g p.1 p.2 (getCell g n.1 n.2) hpy hpx c
  have h2 := count_flatten_setCell (setCell g p.1 p.2 (getCell g n.1 n.2)) n.1 n.2
    (getCell g p.1 p.2)
    (by rw [length_setCell]; exact hny) (by rw [rowlen_setCell]; exact hnx) c
  have h3 : getCell (setCell g p.1 p.2 (getCell g n.1 n.2)) n.1 n.2 = getCell g n.1 n.2 := by
    apply getCell_setCell_ne
    tauto
  rw [h3] at h2
  simp only [List.count_cons, List.count_nil] at h1 h2
  omega


theorem toDigitsCore_eq_digits : ∀ (fuel n : Nat) (acc : List Char), n < fuel →
    Nat.toDigitsCore 10 fuel n acc
      = (if n = 0 then ['0'] else ((Nat.digits 10 n).map Nat.digitChar).reverse) ++ acc := by
  intro fuel
  induction fuel with
  | zero => intro n acc h; omega
  | succ f ih =>
    intro n acc h
    show (if n / 10 = 0 then Nat.digitChar (n % 10) :: acc
          else Nat.toDigitsCore 10 f (n / 10) (Nat.digitChar (n % 10) :: acc)) = _
    by_cases h0 : n / 10 = 0
    · rw [if_pos h0]
      by_cases hn : n = 0
      · subst hn
        simp [Nat.digitChar]
      · rw [if_neg hn]
        have hlt : n < 10 := by omega
        rw [Nat.digits_of_lt 10 n hn hlt]
        have : n % 10 = n := Nat.mod_eq_of_lt hlt
        rw [this]
        simp
    · rw [if_neg h0]
      have hn : n ≠ 0 := by
        intro hz; subst hz; simp at h0
      rw [if_neg hn]
      rw [ih (n / 10) _ (by omega), if_neg h0]
      rw [Nat.digits_def' (by norm_num : (1:Nat) < 10) (Nat.pos_of_ne_zero hn)]
      simp [List.append_assoc]

theorem digitChar_inj_lt10 :
    ∀ a, a < 10 → ∀ b, b < 10 → Nat.digitChar a = Nat.digitChar b → a = b := by
  decide

theorem map_digitChar_inj : ∀ (l1 l2 : List Nat), (∀ d ∈ l1, d < 10) → (∀ d ∈ l2, d < 10) →
    l1.map Nat.digitChar = l2.map Nat.digitChar → l1 = l2 := by
  intro l1
  induction l1 with
  | nil => intro l2 _ _ h; cases l2 <;> simp_all
  | cons a l1 ih =>
    intro l2 h1 h2 h
    cases l2 with
    | nil => simp at h
    | cons b l2 =>
      simp only [List.map_cons, List.cons.injEq] at h
      have ha := h1 a (List.mem_cons_self a l1)
      have hb := h2 b (List.mem_cons_self b l2)
      have : a = b := digitChar_inj_lt10 a ha b hb h.1
      subst this
      rw [ih l2 (fun d hd => h1 d (List.mem_cons_of_mem _ hd))
        (fun d hd => h2 d (List.mem_cons_of_mem _ hd)) h.2]

theorem digits10_lt (n : Nat) : ∀ d ∈ Nat.digits 10 n, d < 10 :=
  fun _ hd => Nat.digits_lt_base (by norm_num) hd

theorem toDigits_eq (n : Nat) :
    Nat.toDigits 10 n = (if n = 0 then ['0'] else ((Nat.digits 10 n).map Nat.digitChar).reverse) := by
  rw [Nat.toDigits, toDigitsCore_eq_digits (n + 1) n [] (by omega), List.append_nil]

theorem repr_injective : Function.Injective Nat.repr := by
  intro m n h
  have h' : Nat.toDigits 10 m = Nat.toDigits 10 n := by
    have := congrArg String.data h
    simpa [Nat.repr, List.asString] using this
  rw [toDigits_eq, toDigits_eq] at h'
  by_cases hm : m = 0 <;> by_cases hn : n = 0
  · rw [hm, hn]
  · rw [if_pos hm, if_neg hn] at h'
    have hrev : (Nat.digits 10 n).map Nat.digitChar = ['0'] := by
      have := congrArg List.reverse h'
      simpa using this.symm
    have hdig : Nat.digits 10 n = [0] := by
      have h10 : (0:Nat) < 10 := by norm_num
      have := map_digitChar_inj (Nat.digits 10 n) [0] (digits10_lt n)
        (by intro d hd; simp at hd; omega) (by simpa using hrev)
      exact this
    have : n = 0 := by
      have := Nat.ofDigits_digits 10 n
      rw [hdig] at this
      simpa [Nat.ofDigits] using this.symm
    exact absurd this hn
  · rw [if_neg hm, if_pos hn] at h'
    have hrev : (Nat.digits 10 m).map Nat.digitChar = ['0'] := by
      have := congrArg List.reverse h'
      simpa using this
    have hdig : Nat.digits 10 m = [0] := by
      exact map_digitChar_inj (Nat.digits 10 m) [0] (digits10_lt m)
        (by intro d hd; simp at hd; omega) (by simpa using hrev)
    have : m = 0 := by
      have := Nat.ofDigits_digits 10 m
      rw [hdig] at this
      simpa [Nat.ofDigits] using this.symm
    exact absurd this hm
  · rw [if_neg hm, if_neg hn] at h'
    have hmap : (Nat.digits 10 m).map Nat.digitChar = (Nat.digits 10 n).map Nat.digitChar := by
      have := congrArg List.reverse h'
      simpa using this
    have hdig := map_digitChar_inj _ _ (digits10_lt m) (digits10_lt n) hmap
    have h1 := Nat.ofDigits_digits 10 m
    have h2 := Nat.ofDigits_digits 10 n
    rw [hdig] at h1
    rw [h2] at h1
    exact h1.symm

theorem repr_ne_blank (n : Nat) : Nat.repr n ≠ blankCell := by
  intro h
  have hd := congrArg String.data h
  simp only [Nat.repr, List.asString, blankCell] at hd
  rw [toDigits_eq] at hd
  by_cases hn : n = 0
  · rw [if_pos hn] at hd; simp at hd
  · rw [if_neg hn] at hd
    have : Nat.digits 10 n ≠ [] := Nat.digits_ne_nil_iff_ne_zero.mpr hn
    simp at hd
    exact this hd


theorem pyRange_rows_count (w h : Nat) (hw : 2 ≤ w) :
    (w * h - 1 + w - 1) / w = h := by
  rcases Nat.eq_zero_or_pos h with rfl | hpos
  · simp only [Nat.mul_zero, Nat.zero_sub]
    apply Nat.div_eq_of_lt
    omega
  · have hA : 2 ≤ w * h := by
      calc 2 = 2 * 1 := rfl
        _ ≤ w * h := Nat.mul_le_mul hw hpos
    have heq : w * h - 1 + w - 1 = (w - 2) + h * w := by
      rw [Nat.mul_comm h w]
      omega
    rw [heq, Nat.add_mul_div_right _ _ (by omega : 0 < w), Nat.div_eq_of_lt (by omega)]
    omega

theorem new_grid_rows_length (w h : Nat) (hw : 2 ≤ w) :
    (new_grid_rows w h).length = h := by
  rw [new_grid_rows, List.length_map, pyRange, List.length_range']
  exact pyRange_rows_count w h hw

theorem new_grid_rows_getD (w h y : Nat) (hw : 2 ≤ w) (hy : y < h) :
    (new_grid_rows w h).getD y [] = (List.range' (1 + w * y) w).map Nat.repr := by
  have hlen : (new_grid_rows w h).length = h := new_grid_rows_length w h hw
  rw [getD_eq_get (by omega)]
  rw [List.get_eq_getElem]
  simp only [new_grid_rows, pyRange, List.getElem_map, List.getElem_range']

theorem new_grid_rows_rowlen (w h y : Nat) (hw : 2 ≤ w) (hy : y < h) :
    ((new_grid_rows w h).getD y []).length = w := by
  rw [new_grid_rows_getD w h y hw hy, List.length_map, List.length_range']

theorem getCell_new_grid_rows {w h : Nat} {x y : Int} (hw : 2 ≤ w)
    (hxw : x.toNat < w) (hyh : y.toNat < h) :
    getCell (new_grid_rows w h) x y = Nat.repr (1 + w * y.toNat + x.toNat) := by
  unfold getCell
  rw [new_grid_rows_getD w h y.toNat hw hyh]
  rw [getD_eq_get (by simp [hxw])]
  rw [List.get_eq_getElem]
  simp only [List.getElem_map, List.getElem_range']
  rw [Nat.one_mul]

theorem flatten_chunks : ∀ (cnt a w : Nat),
    ((List.range' a cnt w).map (fun i => (List.range' i w).map Nat.repr)).flatten
      = (List.range' a (cnt * w)).map Nat.repr := by
  intro cnt
  induction cnt with
  | zero => intro a w; simp
  | succ c ih =>
    intro a w
    rw [List.range'_succ, List.map_cons, List.flatten_cons, ih, ← List.map_append,
        List.range'_append_1, Nat.succ_mul, Nat.add_comm (c * w) w]

theorem flatten_new_grid_rows (w h : Nat) (hw : 2 ≤ w) :
    (new_grid_rows w h).flatten = (List.range' 1 (h * w)).map Nat.repr := by
  have hcnt : (w * h - 1 + w - 1) / w = h := pyRange_rows_count w h hw
  rw [new_grid_rows, pyRange, hcnt, flatten_chunks]

theorem corner_label (w h : Nat) (hw : 2 ≤ w) (hh : 1 ≤ h) :
    1 + w * (h - 1) + (w - 1) = w * h := by
  cases h with
  | zero => omega
  | succ hh2 =>
    have h1 : w * (hh2 + 1 - 1) = w * hh2 := by rw [Nat.add_sub_cancel]
    have h2 : w * (hh2 + 1) = w * hh2 + w := by rw [Nat.mul_succ]
    omega

theorem pred_mul_add (w h : Nat) (hw : 2 ≤ w) (hh : 1 ≤ h) :
    (h - 1) * w + (w - 1) = w * h - 1 := by
  cases h with
  | zero => omega
  | succ k =>
    have h1 : (k + 1 - 1) * w = k * w := by rw [Nat.add_sub_cancel]
    have h2 : w * (k + 1) = k * w + w := by rw [Nat.mul_succ, Nat.mul_comm]
    omega

theorem flatten_solvedBoard (w h : Nat) (hw : 2 ≤ w) (hh : 1 ≤ h) :
    (solvedBoard w h).flatten = canonicalSeq w h := by
  have htx : ((w : Int) - 1).toNat = w - 1 := by omega
  have hty : ((h : Int) - 1).toNat = h - 1 := by omega
  rw [solvedBoard, get_new_grid, setCell, htx, hty]
  have hlen := new_grid_rows_length w h hw
  rw [new_grid_rows_getD w h (h - 1) hw (by omega)]
  -- the modified last row
  have hsplit : List.range' (1 + w * (h - 1)) w = List.range' (1 + w * (h - 1)) (w - 1)
      ++ List.range' (1 + w * (h - 1) + (w - 1)) 1 := by
    rw [List.range'_append_1]
    congr 1
    omega
  have hrowset : ((List.range' (1 + w * (h - 1)) w).map Nat.repr).set (w - 1) blankCell
      = ((List.range' (1 + w * (h - 1)) (w - 1)).map Nat.repr) ++ [blankCell] := by
    rw [List.set_eq_take_cons_drop _ (by simp; omega)]
    rw [hsplit, List.map_append]
    rw [List.take_left' (by simp)]
    congr 1
    rw [List.drop_eq_nil_of_le (by simp)]
  rw [hrowset]
  -- outer set on the rows
  have hyy : h - 1 < (new_grid_rows w h).length := by omega
  rw [List.set_eq_take_cons_drop _ hyy]
  have hdrop : (new_grid_rows w h).drop (h - 1 + 1) = [] := by
    apply List.drop_eq_nil_of_le
    omega
  rw [hdrop]
  -- take (h-1) of the rows
  have htake : (new_grid_rows w h).take (h - 1)
      = ((List.range' 1 (h - 1) w).map (fun i => (List.range' i w).map Nat.repr)) := by
    rw [new_grid_rows, pyRange, pyRange_rows_count w h hw]
    rw [← List.map_take]
    congr 1
    have hsplit2 : List.range' 1 h w = List.range' 1 (h - 1) w
        ++ List.range' (1 + w * (h - 1)) 1 w := by
      rw [List.range'_append]
      congr 1
      omega
    rw [hsplit2, List.take_left' (by simp)]
  rw [htake]
  simp only [List.flatten_append, List.flatten_cons, List.flatten_nil, List.append_nil]
  rw [flatten_chunks]
  rw [canonicalSeq, ← List.append_assoc, ← List.map_append]
  congr 2
  have hstart : 1 + (h - 1) * w = 1 + w * (h - 1) := by rw [Nat.mul_comm]
  rw [← hstart, List.range'_append_1]
  congr 1
  rw [Nat.add_comm]
  exact pred_mul_add w h hw hh


theorem getD_oob {α : Type _} {l : List α} {i : Nat} {d : α} (h : l.length ≤ i) :
    l.getD i d = d := by
  rw [List.getD_eq_getElem?_getD, List.getElem?_eq_none h]
  rfl

theorem setCell_congr_toNat {g : Board} {x y x2 y2 : Int} (v : String)
    (hx : x.toNat = x2.toNat) (hy : y.toNat = y2.toNat) :
    setCell g x y v = setCell g x2 y2 v := by
  unfold setCell
  rw [hx, hy]

theorem getCell_mem_flatten {g : Board} {x y : Int}
    (hy : y.toNat < g.length) (hx : x.toNat < (g.getD y.toNat []).length) :
    getCell g x y ∈ g.flatten := by
  rw [getCell_eq_getElem hx]
  apply List.mem_flatten.mpr
  refine ⟨g.getD y.toNat [], ?_, ?_⟩
  · rw [getD_eq_get hy, List.get_eq_getElem]
    exact List.getElem_mem hy
  · rw [List.get_eq_getElem]
    exact List.getElem_mem hx

theorem repr_not_mem_canonicalSeq (w h : Nat) :
    Nat.repr (w * h) ∉ canonicalSeq w h := by
  intro hmem
  rw [canonicalSeq] at hmem
  rcases List.mem_append.mp hmem with hm | hm
  · obtain ⟨j, hj, hrepr⟩ := List.mem_map.mp hm
    have hjwh : j = w * h := repr_injective hrepr
    rw [List.mem_range'] at hj
    obtain ⟨i, hi, hji⟩ := hj
    omega
  · simp only [List.mem_singleton] at hm
    exact repr_ne_blank (w * h) hm

theorem eq_of_flatten_eq : ∀ (g1 g2 : Board), g1.length = g2.length →
    (∀ i, (g1.getD i []).length = (g2.getD i []).length) →
    g1.flatten = g2.flatten → g1 = g2 := by
  intro g1
  induction g1 with
  | nil =>
    intro g2 hl _ _
    cases g2 with
    | nil => rfl
    | cons r g2 => simp at hl
  | cons r g1 ih =>
    intro g2 hl hrow hf
    cases g2 with
    | nil => simp at hl
    | cons r2 g2 =>
      have hr : r.length = r2.length := hrow 0
      rw [List.flatten_cons, List.flatten_cons] at hf
      obtain ⟨h1, h2⟩ := List.append_inj hf hr
      rw [h1, ih g2 (by simpa using hl) (fun i => hrow (i + 1)) h2]

theorem boundsOk_lt_dims {g : Board} {x y : Int} {w h : Nat} (hb : boundsOk g x y = true)
    (hlen : g.length = h) (hrows : ∀ r ∈ g, r.length = w) (hh : 1 ≤ h) :
    x.toNat < w ∧ y.toNat < h := by
  simp only [boundsOk, Bool.and_eq_true, decide_eq_true_eq] at hb
  obtain ⟨⟨⟨hx0, hxw⟩, hy0⟩, hyh⟩ := hb
  cases g with
  | nil => simp at hlen; omega
  | cons r0 rest =>
    have hr0 : r0.length = w := hrows r0 (List.mem_cons_self r0 rest)
    simp only [List.headD_cons] at hxw
    constructor
    · omega
    · simp only [List.length_cons] at hlen hyh
      omega


theorem has_won_iff_flatten_canonical (s : Grid)
    (hw : 2 ≤ s.width) (hh : 1 ≤ s.height)
    (hlen : s.grid.length = s.height)
    (hrows : ∀ r ∈ s.grid, r.length = s.width)
    (hbounds : boundsOk s.grid s.empty_index.1 s.empty_index.2 = true)
    (hblank : getCell s.grid s.empty_index.1 s.empty_index.2 = blankCell)
    (hperm : s.grid.flatten.Perm (canonicalSeq s.width s.height)) :
    s.has_won = true ↔ s.grid.flatten = canonicalSeq s.width s.height := by
  have htx : ((s.width : Int) - 1).toNat = s.width - 1 := by omega
  have hty : ((s.height : Int) - 1).toNat = s.height - 1 := by omega
  constructor
  · intro hwon
    rw [Grid.has_won, decide_eq_true_eq] at hwon
    by_cases hc : s.empty_index.1.toNat = s.width - 1 ∧ s.empty_index.2.toNat = s.height - 1
    · have hG : Grid.get_new_grid s = solvedBoard s.width s.height := by
        rw [Grid.get_new_grid, get_new_grid, solvedBoard, get_new_grid]
        exact setCell_congr_toNat _ (by omega) (by omega)
      rw [hwon, hG]
      exact flatten_solvedBoard _ _ hw hh
    · exfalso
      rw [not_and_or] at hc
      have hcorner : getCell (Grid.get_new_grid s) ((s.width : Int) - 1) ((s.height : Int) - 1)
          = Nat.repr (s.width * s.height) := by
        rw [Grid.get_new_grid, get_new_grid]
        rw [getCell_setCell_ne (by rw [htx, hty]; tauto)]
        rw [getCell_new_grid_rows hw (by omega) (by omega)]
        rw [htx, hty]
        congr 1
        exact corner_label _ _ hw hh
      have hmem : Nat.repr (s.width * s.height) ∈ s.grid.flatten := by
        rw [hwon, ← hcorner]
        apply getCell_mem_flatten
        · rw [Grid.get_new_grid, get_new_grid, length_setCell, new_grid_rows_length _ _ hw]
          omega
        · rw [Grid.get_new_grid, get_new_grid, rowlen_setCell, hty,
              new_grid_rows_rowlen _ _ _ hw (by omega)]
          omega
      exact repr_not_mem_canonicalSeq _ _ (hperm.mem_iff.mp hmem)
  · intro hflat
    have hsolvlen : (solvedBoard s.width s.height).length = s.height := by
      rw [solvedBoard, get_new_grid, length_setCell, new_grid_rows_length _ _ hw]
    have hrowsd : ∀ i, (s.grid.getD i []).length
        = ((solvedBoard s.width s.height).getD i []).length := by
      intro i
      by_cases hi : i < s.height
      · rw [solvedBoard, get_new_grid, rowlen_setCell, new_grid_rows_rowlen _ _ _ hw hi]
        have hmem : s.grid.getD i [] ∈ s.grid := by
          rw [getD_eq_get (by omega), List.get_eq_getElem]
          exact List.getElem_mem (by omega)
        exact hrows _ hmem
      · rw [getD_oob (by omega), getD_oob (by omega)]
    have hgeq : s.grid = solvedBoard s.width s.height := by
      apply eq_of_flatten_eq _ _ (by omega) hrowsd
      rw [hflat, flatten_solvedBoard _ _ hw hh]
    have hxyb := boundsOk_lt_dims hbounds hlen hrows hh
    have hcornerE : s.empty_index.1.toNat = s.width - 1
        ∧ s.empty_index.2.toNat = s.height - 1 := by
      by_contra hc
      rw [not_and_or] at hc
      have hcell : getCell (solvedBoard s.width s.height) s.empty_index.1 s.empty_index.2
          = Nat.repr (1 + s.width * s.empty_index.2.toNat + s.empty_index.1.toNat) := by
        rw [solvedBoard, get_new_grid]
        rw [getCell_setCell_ne (by rw [htx, hty]; tauto)]
        exact getCell_new_grid_rows hw hxyb.1 hxyb.2
      rw [hgeq, hcell] at hblank
      exact repr_ne_blank _ hblank
    have hGG : Grid.get_new_grid s = solvedBoard s.width s.height := by
      rw [Grid.get_new_grid, get_new_grid, solvedBoard, get_new_grid]
      exact setCell_congr_toNat _ (by omega) (by omega)
    rw [Grid.has_won, decide_eq_true_eq, hgeq, hGG]


theorem boardOf_make_move_input_congr {s t : Grid} (h : boardOf s = boardOf t)
    (m : MoveInput) (sh1 sh2 : Bool) :
    boardOf (s.make_move m sh1).1 = boardOf (t.make_move m sh2).1 := by
  cases m with
  | key k => exact boardOf_make_move_congr h k sh1 sh2
  | letter c =>
    cases hc : letter_convert c with
    | none =>
      rw [make_move_unrecognized s _ sh1 (by simp [recognized, hc]),
          make_move_unrecognized t _ sh2 (by simp [recognized, hc])]
      exact h
    | some k =>
      rw [make_move_letter s c k sh1 hc, make_move_letter t c k sh2 hc]
      exact boardOf_make_move_congr h k sh1 sh2

theorem has_won_congr {s t : Grid} (hb : boardOf s = boardOf t)
    (hw : s.width = t.width) (hh : s.height = t.height) :
    s.has_won = t.has_won := by
  have hg : s.grid = t.grid := congrArg Prod.fst hb
  have he : s.empty_index = t.empty_index := congrArg Prod.snd hb
  rw [Grid.has_won, Grid.has_won, Grid.get_new_grid, Grid.get_new_grid, hg, he, hw, hh]

theorem has_started_make_move (s : Grid) (m : MoveInput) (sh : Bool) :
    ((s.make_move m sh).1).has_started = s.has_started := by
  cases m with
  | key k =>
    by_cases hacc : s.accepts k = true
    · rw [make_move_accepted s k sh hacc]
      cases hc : ((moved s k sh).has_won && s.has_started) <;> simp [hc, moved]
    · rw [make_move_not_accepted s k sh (by simpa using hacc)]
  | letter c =>
    cases hc : letter_convert c with
    | none => rw [make_move_unrecognized s _ sh (by simp [recognized, hc])]
    | some k =>
      rw [make_move_letter s c k sh hc]
      by_cases hacc : s.accepts k = true
      · rw [make_move_accepted s k sh hacc]
        cases hc2 : ((moved s k sh).has_won && s.has_started) <;> simp [hc2, moved]
      · rw [make_move_not_accepted s k sh (by simpa using hacc)]


/-- C1 counterexample: on a freshly constructed solved board
(`fresh2x2`, the canonical 2x2 arrangement with `has_started = false`),
`has_won` already returns `true`, so the claimed equivalence
"has_won is true iff started is true AND the grid is canonical" is false
at this state. -/
theorem C1_counterexample :
    fresh2x2.has_started = false
    ∧ fresh2x2.grid.flatten = canonicalSeq fresh2x2.width fresh2x2.height
    ∧ fresh2x2.has_won = true := by
  decide

/-- C1 (amended): `has_won` ignores the `started` flag entirely: on a
well-formed board it returns true iff the flattened grid equals the
canonical solved sequence (labels 1..N-1 in row-major order followed by the
blank), whatever `has_started` is; the `started` conjunction appears only at
the win-effect site inside `make_move` (`has_won and has_started`). -/
theorem C1_has_won_iff_canonical (s : Grid)
    (hw : 2 ≤ s.width) (hh : 1 ≤ s.height)
    (hlen : s.grid.length = s.height)
    (hrows : ∀ r ∈ s.grid, r.length = s.width)
    (hbounds : boundsOk s.grid s.empty_index.1 s.empty_index.2 = true)
    (hblank : getCell s.grid s.empty_index.1 s.empty_index.2 = blankCell)
    (hperm : s.grid.flatten.Perm (canonicalSeq s.width s.height)) :
    (s.has_won = true ↔ s.grid.flatten = canonicalSeq s.width s.height)
    ∧ (∀ b, ({ s with has_started := b } : Grid).has_won = s.has_won) :=
  ⟨has_won_iff_flatten_canonical s hw hh hlen hrows hbounds hblank hperm, fun _ => rfl⟩

/-- Witness for C1: the amended characterisation applied to the started 2x2
solved state. -/
theorem C1_witness :
    (2 ≤ started2x2.width) ∧ (1 ≤ started2x2.height)
    ∧ (started2x2.grid.length = started2x2.height)
    ∧ (∀ r ∈ started2x2.grid, r.length = started2x2.width)
    ∧ (boundsOk started2x2.grid started2x2.empty_index.1 started2x2.empty_index.2 = true)
    ∧ (getCell started2x2.grid started2x2.empty_index.1 started2x2.empty_index.2 = blankCell)
    ∧ (started2x2.grid.flatten.Perm (canonicalSeq started2x2.width started2x2.height))
    ∧ ((started2x2.has_won = true
          ↔ started2x2.grid.flatten = canonicalSeq started2x2.width started2x2.height)
        ∧ (∀ b, ({ started2x2 with has_started := b } : Grid).has_won = started2x2.has_won)) :=
  ⟨by decide, by decide, by decide, by decide, by decide, by decide, by decide,
    C1_has_won_iff_canonical started2x2 (by decide) (by decide) (by decide) (by decide)
      (by decide) (by decide) (by decide)⟩

/-- C2 counterexample: on the solved 3x1 board `["1","2",""]` with the blank
rightmost, applying Move Left (`K_LEFT`) is rejected as out of bounds and is
a complete no-op, so it is not accepted and does not produce the claimed
board `["1","","2"]`. -/
theorem C2_counterexample :
    solved3x1.make_move (MoveInput.key K_LEFT) false = (solved3x1, false)
    ∧ solved3x1.grid ≠ [["1", "", "2"]] := by
  decide

/-- C2 (amended): on the solved 3x1 board the roles of Left and Right are
swapped relative to the claim: Move Right is accepted and yields
`["1","","2"]` with the blank at (1,0); Move Left from that state returns
the board to `["1","2",""]`; Move Left from the solved state is a no-op. -/
theorem C2_amended :
    ((solved3x1.make_move (MoveInput.key K_RIGHT) false).1).grid = [["1", "", "2"]]
    ∧ ((solved3x1.make_move (MoveInput.key K_RIGHT) false).1).empty_index = (1, 0)
    ∧ (((solved3x1.make_move (MoveInput.key K_RIGHT) false).1.make_move
          (MoveInput.key K_LEFT) false).1).grid = [["1", "2", ""]]
    ∧ solved3x1.make_move (MoveInput.key K_LEFT) false = (solved3x1, false) := by
  decide

/-- C3 counterexample: a shuffle-flagged accepted move that lands on the
winning arrangement (here on a started 2x1 board) does run `save_state` and
overwrites the persisted record, contradicting the claim that no shuffle,
reset or replay-reconstruction move ever writes it. -/
theorem C3_counterexample :
    (preWin2x1.make_move (MoveInput.key K_LEFT) true).2 = true
    ∧ (preWin2x1.make_move (MoveInput.key K_LEFT) true).1.prev_moves = some []
    ∧ (preWin2x1.make_move (MoveInput.key K_LEFT) true).1.prev_board = some [["", "1"]] := by
  decide

/-- C3 (amended): the persisted record is written by `make_move` exactly
when the move is accepted and the resulting grid is in the winning
arrangement while `has_started` is true - the shuffle/replay flag plays no
role in the decision: a shuffle, reset-shuffle or replay move landing on the
winning arrangement also writes it. -/
theorem C3_save_condition (s : Grid) (m : MoveInput) (sh : Bool) :
    (s.make_move m sh).2
      = (s.accepts_input m && (s.make_move m sh).1.has_won && s.has_started)
    ∧ (s.make_move m true).2 = (s.make_move m false).2 := by
  refine ⟨make_move_snd_eq s m sh, ?_⟩
  rw [make_move_snd_eq s m true, make_move_snd_eq s m false]
  have hb : boardOf (s.make_move m true).1 = boardOf (s.make_move m false).1 :=
    boardOf_make_move_input_congr rfl m true false
  have hwon : ((s.make_move m true).1).has_won = ((s.make_move m false).1).has_won := by
    apply has_won_congr hb
    · exact (dims_make_move s m true).1.trans (dims_make_move s m false).1.symm
    · exact (dims_make_move s m true).2.trans (dims_make_move s m false).2.symm
  rw [hwon]

/-- C4: the direction-to-neighbor mapping is the inverted one of the claim -
Up examines (x, y+1), Down (x, y-1), Left (x+1, y), Right (x-1, y) - and an
accepted move swaps the blank's cell with exactly the examined cell and
moves `empty_index` there, while an out-of-bounds neighbor leaves the board
unchanged. -/
theorem C4_direction_mapping (s : Grid) (d : Dir) (sh : Bool) :
    neighbors s.empty_index.1 s.empty_index.2 (dirKey d)
      = specNeighbor s.empty_index.1 s.empty_index.2 d
    ∧ boardOf (s.make_move (MoveInput.key (dirKey d)) sh).1
      = (if boundsOk s.grid (specNeighbor s.empty_index.1 s.empty_index.2 d).1
              (specNeighbor s.empty_index.1 s.empty_index.2 d).2 = true then
          (swap_cells s.grid s.empty_index (specNeighbor s.empty_index.1 s.empty_index.2 d),
            specNeighbor s.empty_index.1 s.empty_index.2 d)
        else boardOf s) := by
  have hmap : neighbors s.empty_index.1 s.empty_index.2 (dirKey d)
      = specNeighbor s.empty_index.1 s.empty_index.2 d := by
    cases d <;> simp [neighbors, specNeighbor, dirKey, K_UP, K_DOWN, K_RIGHT, K_LEFT]
  refine ⟨hmap, ?_⟩
  have hd : isDirKey (dirKey d) = true := by cases d <;> decide
  rw [boardOf_make_move]
  rw [Grid.accepts, hd, Bool.true_and, Grid.is_index_in_bounds, hmap]

/-- C5: a directional move whose examined neighbor is out of bounds is a
complete, silent no-op: `make_move` returns the state unchanged (same grid,
blank index and move log), raises nothing, and reports no persisted-state
write. -/
theorem C5_oob_noop (s : Grid) (d : Dir) (sh : Bool)
    (hoob : boundsOk s.grid (neighbors s.empty_index.1 s.empty_index.2 (dirKey d)).1
        (neighbors s.empty_index.1 s.empty_index.2 (dirKey d)).2 = false) :
    s.make_move (MoveInput.key (dirKey d)) sh = (s, false) := by
  apply make_move_not_accepted
  rw [Grid.accepts, Grid.is_index_in_bounds, hoob, Bool.and_false]

/-- Witness for C5: moving Up on the solved 2x1 board examines the cell one
row below the blank, which is out of bounds, and the move is a no-op. -/
theorem C5_witness :
    (boundsOk solved2x1.grid
        (neighbors solved2x1.empty_index.1 solved2x1.empty_index.2 (dirKey Dir.up)).1
        (neighbors solved2x1.empty_index.1 solved2x1.empty_index.2 (dirKey Dir.up)).2 = false)
    ∧ solved2x1.make_move (MoveInput.key (dirKey Dir.up)) false = (solved2x1, false) :=
  ⟨by decide, C5_oob_noop solved2x1 Dir.up false (by decide)⟩


theorem dirKey_isDirKey (d : Dir) : isDirKey (dirKey d) = true := by
  cases d <;> decide

theorem log_reverse_inverse (moves : List Dir) :
    (moves.map (fun d => move_map (dirKey d))).reverse.map inverse
      = (moves.map dirKey).reverse.map inverse_key := by
  have h1 : (moves.map (fun d => move_map (dirKey d))).reverse
      = moves.reverse.map (fun d => move_map (dirKey d)) := (List.map_reverse _ _).symm
  have h2 : (moves.map dirKey).reverse = moves.reverse.map dirKey := (List.map_reverse _ _).symm
  rw [h1, h2, List.map_map, List.map_map]
  apply List.map_congr_left
  intro d _
  exact inverse_move_map (dirKey_isDirKey d)

/-- C6: moves accepted from a board, then inverted (Up-Down, Left-Right
swapped) and applied in reverse insertion order, restore exactly the
original board; in particular `reverse_solve` applied to the recorded move
letters of such a sequence restores the board the sequence started from. -/
theorem C6_round_trip (s : Grid) (moves : List Dir) (sh : Bool)
    (hwf : wfBoard s)
    (hacc : s.all_accepted (moves.map dirKey) = true) :
    boardOf ((s.apply_keys (moves.map dirKey) sh).apply_keys
        ((moves.map dirKey).reverse.map inverse_key) sh) = boardOf s
    ∧ boardOf ((s.apply_keys (moves.map dirKey) sh).reverse_solve
        (moves.map (fun d => move_map (dirKey d)))) = boardOf s := by
  constructor
  · exact apply_keys_round_trip (moves.map dirKey) s sh sh hwf hacc
  · rw [reverse_solve_eq_apply_keys, log_reverse_inverse]
    exact apply_keys_round_trip (moves.map dirKey) s sh true hwf hacc

/-- Witness for C6: the one-move sequence Left on a started 2x1 board, one
move away from solved. -/
theorem C6_witness :
    wfBoard preWin2x1
    ∧ preWin2x1.all_accepted ([Dir.left].map dirKey) = true
    ∧ (boardOf ((preWin2x1.apply_keys ([Dir.left].map dirKey) false).apply_keys
          (([Dir.left].map dirKey).reverse.map inverse_key) false) = boardOf preWin2x1
      ∧ boardOf ((preWin2x1.apply_keys ([Dir.left].map dirKey) false).reverse_solve
          ([Dir.left].map (fun d => move_map (dirKey d)))) = boardOf preWin2x1) :=
  ⟨by decide, by decide, C6_round_trip preWin2x1 [Dir.left] false (by decide) (by decide)⟩

/-- C7: for a move sequence accepted from a scrambled board and ending in
the canonical solved board (a recorded winning log), rebuilding the board
through the playback pipeline (`playback_reset` then `load_playback_grid`,
i.e. `reverse_solve` from the rebuilt ordered grid) and then replaying the
recorded letters forward one at a time ends with the board in the canonical
solved state. -/
theorem C7_reconstruct_replay (s : Grid) (moves : List Dir)
    (hwf : wfBoard s)
    (hacc : s.all_accepted (moves.map dirKey) = true)
    (hsolved : boardOf (s.apply_keys (moves.map dirKey) false)
        = (solvedBoard s.width s.height, ((s.width : Int) - 1, (s.height : Int) - 1))) :
    boardOf (replay_forward
        (((s.apply_keys (moves.map dirKey) false).playback_reset).load_playback_grid
          (moves.map (fun d => move_map (dirKey d))))
        (moves.map (fun d => move_map (dirKey d))))
      = (solvedBoard s.width s.height, ((s.width : Int) - 1, (s.height : Int) - 1)) := by
  set ks := moves.map dirKey with hks
  set t := s.apply_keys ks false with ht
  have hdw : t.width = s.width := (dims_apply_keys ks s false).1
  have hdh : t.height = s.height := (dims_apply_keys ks s false).2
  have hlog : moves.map (fun d => move_map (dirKey d)) = ks.map move_map := by
    rw [hks, List.map_map]
    rfl
  have hq : boardOf { t.playback_reset with grid := (t.playback_reset).get_new_grid }
      = (solvedBoard t.width t.height, ((t.width : Int) - 1, (t.height : Int) - 1)) := rfl
  have hqt : boardOf { t.playback_reset with grid := (t.playback_reset).get_new_grid }
      = boardOf t := by
    rw [hq, hdw, hdh, hsolved]
  have hrec : boardOf ((t.playback_reset).load_playback_grid
      (moves.map (fun d => move_map (dirKey d)))) = boardOf s := by
    rw [Grid.load_playback_grid, reverse_solve_eq_apply_keys, log_reverse_inverse]
    calc boardOf (Grid.apply_keys _ ((moves.map dirKey).reverse.map inverse_key) true)
        = boardOf (t.apply_keys ((moves.map dirKey).reverse.map inverse_key) true) :=
          boardOf_apply_keys_congr hqt _ true true
      _ = boardOf s := apply_keys_round_trip ks s false true hwf hacc
  have hdirs : ∀ k ∈ ks, isDirKey k = true := by
    intro k hk
    obtain ⟨d, _, rfl⟩ := List.mem_map.mp hk
    exact dirKey_isDirKey d
  rw [hlog]
  rw [replay_forward_eq_apply_keys ks _ hdirs]
  rw [← hlog]
  calc boardOf (Grid.apply_keys _ ks false)
      = boardOf (s.apply_keys ks false) := boardOf_apply_keys_congr hrec ks false false
    _ = _ := hsolved

/-- Witness for C7: the one-move log Left on a started 2x1 board whose
forward application ends solved. -/
theorem C7_witness :
    wfBoard preWin2x1
    ∧ preWin2x1.all_accepted ([Dir.left].map dirKey) = true
    ∧ boardOf (preWin2x1.apply_keys ([Dir.left].map dirKey) false)
        = (solvedBoard preWin2x1.width preWin2x1.height,
            ((preWin2x1.width : Int) - 1, (preWin2x1.height : Int) - 1))
    ∧ boardOf (replay_forward
        (((preWin2x1.apply_keys ([Dir.left].map dirKey) false).playback_reset).load_playback_grid
          ([Dir.left].map (fun d => move_map (dirKey d))))
        ([Dir.left].map (fun d => move_map (dirKey d))))
      = (solvedBoard preWin2x1.width preWin2x1.height,
          ((preWin2x1.width : Int) - 1, (preWin2x1.height : Int) - 1)) :=
  ⟨by decide, by decide, by decide,
    C7_reconstruct_replay preWin2x1 [Dir.left] (by decide) (by decide) (by decide)⟩


/-- C8: on a well-formed board whose blank cell really is blank, every
directional move either moves `empty_index` to the in-bounds examined
neighbor, keeps the cell labels a permutation of the original multiset and
keeps the blank at `empty_index`, or returns the state completely unchanged:
no partial mutation ever occurs. -/
theorem C8_move_invariants (s : Grid) (d : Dir) (sh : Bool)
    (hwf : wfBoard s)
    (hblank : getCell s.grid s.empty_index.1 s.empty_index.2 = blankCell) :
    (boundsOk s.grid (neighbors s.empty_index.1 s.empty_index.2 (dirKey d)).1
          (neighbors s.empty_index.1 s.empty_index.2 (dirKey d)).2 = true
      ∧ ((s.make_move (MoveInput.key (dirKey d)) sh).1).empty_index
          = neighbors s.empty_index.1 s.empty_index.2 (dirKey d)
      ∧ ((s.make_move (MoveInput.key (dirKey d)) sh).1).grid.flatten.Perm s.grid.flatten
      ∧ getCell ((s.make_move (MoveInput.key (dirKey d)) sh).1).grid
          ((s.make_move (MoveInput.key (dirKey d)) sh).1).empty_index.1
          ((s.make_move (MoveInput.key (dirKey d)) sh).1).empty_index.2 = blankCell)
    ∨ s.make_move (MoveInput.key (dirKey d)) sh = (s, false) := by
  obtain ⟨hu, he⟩ := hwf
  have hd : isDirKey (dirKey d) = true := dirKey_isDirKey d
  by_cases hb : boundsOk s.grid (neighbors s.empty_index.1 s.empty_index.2 (dirKey d)).1
      (neighbors s.empty_index.1 s.empty_index.2 (dirKey d)).2 = true
  · left
    have hacc : s.accepts (dirKey d) = true := by
      rw [Grid.accepts, hd, Bool.true_and, Grid.is_index_in_bounds]
      exact hb
    have hB := boardOf_make_move s (dirKey d) sh
    rw [if_pos hacc] at hB
    have hg := congrArg Prod.fst hB
    have hee := congrArg Prod.snd hB
    simp only [boardOf] at hg hee
    have hne : s.empty_index.1.toNat
          ≠ (neighbors s.empty_index.1 s.empty_index.2 (dirKey d)).1.toNat
        ∨ s.empty_index.2.toNat
          ≠ (neighbors s.empty_index.1 s.empty_index.2 (dirKey d)).2.toNat := by
      obtain ⟨hx0, hy0⟩ := boundsOk_nonneg he
      obtain ⟨hnx0, hny0⟩ := boundsOk_nonneg hb
      exact neighbors_toNat_ne s.empty_index.1 s.empty_index.2 hd hx0 hy0 hnx0 hny0
    refine ⟨hb, hee, ?_, ?_⟩
    · rw [hg]
      exact flatten_swap_cells_perm s.grid s.empty_index _ hu he hb hne
    · rw [hg, hee]
      obtain ⟨hpy, hpx⟩ := validPos_of_boundsOk hu he
      obtain ⟨hny, hnx⟩ := validPos_of_boundsOk hu hb
      rw [swap_cells]
      rw [getCell_setCell_self (by rw [length_setCell]; exact hny)
        (by rw [rowlen_setCell]; exact hnx)]
      exact hblank
  · right
    apply make_move_not_accepted
    rw [Grid.accepts, Grid.is_index_in_bounds, (by simpa using hb : boundsOk s.grid
      (neighbors s.empty_index.1 s.empty_index.2 (dirKey d)).1
      (neighbors s.empty_index.1 s.empty_index.2 (dirKey d)).2 = false), Bool.and_false]

/-- Witness for C8: the accepted move Left on a started 2x1 board. -/
theorem C8_witness :
    wfBoard preWin2x1
    ∧ getCell preWin2x1.grid preWin2x1.empty_index.1 preWin2x1.empty_index.2 = blankCell
    ∧ ((boundsOk preWin2x1.grid
            (neighbors preWin2x1.empty_index.1 preWin2x1.empty_index.2 (dirKey Dir.left)).1
            (neighbors preWin2x1.empty_index.1 preWin2x1.empty_index.2 (dirKey Dir.left)).2 = true
        ∧ ((preWin2x1.make_move (MoveInput.key (dirKey Dir.left)) false).1).empty_index
            = neighbors preWin2x1.empty_index.1 preWin2x1.empty_index.2 (dirKey Dir.left)
        ∧ ((preWin2x1.make_move (MoveInput.key (dirKey Dir.left)) false).1).grid.flatten.Perm
            preWin2x1.grid.flatten
        ∧ getCell ((preWin2x1.make_move (MoveInput.key (dirKey Dir.left)) false).1).grid
            ((preWin2x1.make_move (MoveInput.key (dirKey Dir.left)) false).1).empty_index.1
            ((preWin2x1.make_move (MoveInput.key (dirKey Dir.left)) false).1).empty_index.2
          = blankCell)
      ∨ preWin2x1.make_move (MoveInput.key (dirKey Dir.left)) false = (preWin2x1, false)) :=
  ⟨by decide, by decide, C8_move_invariants preWin2x1 Dir.left false (by decide) (by decide)⟩

/-- C9: the shuffle loop is exactly 10000 draws from the injected random
source, each applied through `make_move` with the shuffle flag set, so the
move log is never extended by a scramble move; rejected draws are simply
no-ops of the fold, never retried. -/
theorem C9_shuffle_uncounted (s : Grid) (draw : Nat → Nat) :
    s.shuffle draw = s.apply_keys ((List.range 10000).map draw) true
    ∧ (s.shuffle draw).moves_made = s.moves_made := by
  refine ⟨shuffle_eq_apply_keys s draw, ?_⟩
  rw [shuffle_eq_apply_keys s draw, moves_made_apply_keys_shuffle]

/-- C10: an input that is neither one of the four arrow-key codes nor one of
the letters U, D, L, R makes `make_move` a silent no-op: the state (grid,
blank index, move log, persisted record) is returned unchanged and no write
happens. -/
theorem C10_unrecognized_noop (s : Grid) (m : MoveInput) (sh : Bool)
    (h : recognized m = false) :
    s.make_move m sh = (s, false) :=
  make_move_unrecognized s m sh h

/-- Witness for C10: the restart key r is not a move key and is ignored by
`make_move`. -/
theorem C10_witness :
    recognized (MoveInput.key K_r) = false
    ∧ solved2x1.make_move (MoveInput.key K_r) false = (solved2x1, false) :=
  ⟨by decide, C10_unrecognized_noop solved2x1 (MoveInput.key K_r) false (by decide)⟩

end SlidingPuzzle
